import Mathlib

/-!
Verification of the smallbot agent core against its design spec.

The development shallow-embeds the two core components of the repository:

* the agent turn loop `runAgent` (src/agent.ts): a loop that repeatedly
  invokes the model, collects streamed text deltas and tool calls, appends
  the finalized assistant message, executes the requested tools in order
  (synthesizing error-flagged tool results for unknown tools, validation
  failures and execution failures), and returns the final text of the
  first turn that requests no tool calls;

* the streaming renderer of `handleMessage` (src/index.ts): the throttled
  `editMessage` closure, the stream-event switch (text_delta / tool_start /
  tool_end / done), the final forced edit, and the overflow delivery that
  splits a long final text into 4096-character transport messages.

JavaScript strings are modelled as Lean `String` (lists of characters;
the UTF-16 code-unit/codepoint distinction is immaterial to the verified
properties).  `Date.now()` values are explicit `Int` timestamps supplied
with each event.  Fallible external calls (tool execution, argument
validation, transport edits) are modelled with `Except String`, mirroring
JavaScript exceptions carrying a message.  The unbounded `while (true)`
loop is modelled with an explicit fuel parameter: `none` means the loop
did not terminate within the given number of turns.
-/

namespace Smallbot

/-! ## Data model: messages, tool calls, stream events (pi-ai interface) -/

/-- One content part of a message: text, or a binary attachment
(base64 data + MIME type), as used by `@mariozechner/pi-ai`. -/
inductive ContentPart where
  | text (s : String)
  | image (data : String) (mimeType : String)
deriving DecidableEq, Repr

/-- A tool call emitted by the model: `{ id, name, arguments }`.
The argument payload is kept abstract as a string. -/
structure ToolCall where
  id : String
  name : String
  args : String
deriving DecidableEq, Repr

/-- A conversation message.  `user` and `assistant` mirror the messages the
bot and the library construct; `toolResult` mirrors the objects pushed by
`runAgent` (`{ role: "toolResult", toolCallId, toolName, content, isError,
timestamp }`). -/
inductive Message where
  | user (content : List ContentPart) (timestamp : Nat)
  | assistant (text : String) (toolCalls : List ToolCall) (timestamp : Nat)
  | toolResult (toolCallId : String) (toolName : String)
      (content : List ContentPart) (isError : Bool) (timestamp : Nat)
deriving DecidableEq, Repr

/-- Events of the provider stream consumed by `runAgent`'s
`for await (const event of s)` loop.  The loop reacts to `text_delta`
and `toolcall_end` and ignores every other event type (`other`). -/
inductive StreamEvt where
  | text_delta (delta : String)
  | toolcall_end (toolCall : ToolCall)
  | other
deriving DecidableEq, Repr

/-- `text` accumulated by the event loop: `text += event.delta`. -/
def textOf (events : List StreamEvt) : String :=
  events.foldl
    (fun acc e =>
      match e with
      | .text_delta d => acc ++ d
      | _ => acc) ""

/-- `toolCalls` collected by the event loop:
`toolCalls.push(event.toolCall)` on each `toolcall_end`. -/
def toolCallsOf (events : List StreamEvt) : List ToolCall :=
  events.filterMap
    (fun e =>
      match e with
      | .toolcall_end tc => some tc
      | _ => none)

/-- What one model invocation produces: the ordered event stream and the
finalized assistant message returned by `s.result()`. -/
structure TurnOutput where
  events : List StreamEvt
  result : Message
deriving Repr

/-- The model client: given the working message history (system prompt and
tool definitions are fixed for the whole run), produce the turn's stream
and final message.  External black box, supplied as a function. -/
abbrev ModelFn := List Message → TurnOutput

/-- Environment of a `runAgent` run: the handler table built from
`allTools` (`toolHandlers.get(name)`), the library's `validateToolCall`
(which throws on schema violations), and the `Date.now()` value used for
tool-result timestamps.  A handler's `execute(id, validated)` yields the
`result.content` parts or throws. -/
structure AgentEnv where
  findHandler : String → Option (String → ToolCall → Except String (List ContentPart))
  validate : ToolCall → Except String ToolCall
  now : Nat

/-! ## The turn loop (`runAgent`, src/agent.ts) -/

/-- Execution of one tool call inside the `for (const tc of toolCalls)`
loop of `runAgent`: unknown tool → error-flagged result; validation or
execution throw → error-flagged result with `Error: <message>`;
success → plain result with the tool's content parts. -/
def execToolCall (env : AgentEnv) (tc : ToolCall) : Message :=
  match env.findHandler tc.name with
  | none =>
      .toolResult tc.id tc.name [.text ("Unknown tool: " ++ tc.name)] true env.now
  | some execute =>
      match (env.validate tc).bind (execute tc.id) with
      | .ok content => .toolResult tc.id tc.name content false env.now
      | .error msg =>
          .toolResult tc.id tc.name [.text ("Error: " ++ msg)] true env.now

/-- The `while (true)` loop of `runAgent`, with explicit fuel.  Each
iteration: stream a turn, append the finalized assistant message, return
the accumulated text if no tool calls were requested, otherwise append one
tool result per requested call (in order) and loop.  `none` = the loop did
not finish within `fuel` turns. -/
def runAgentFuel (env : AgentEnv) (model : ModelFn) :
    Nat → List Message → Option (String × List Message)
  | 0, _ => none
  | fuel + 1, ctx =>
      let out := model ctx
      let text := textOf out.events
      let toolCalls := toolCallsOf out.events
      let ctx1 := ctx ++ [out.result]
      if toolCalls.isEmpty then some (text, ctx1)
      else runAgentFuel env model fuel (ctx1 ++ toolCalls.map (execToolCall env))

/-- History update of one non-terminal turn (assistant message followed by
the tool results, in call order). -/
def nextCtx (env : AgentEnv) (model : ModelFn) (ctx : List Message) : List Message :=
  (ctx ++ [(model ctx).result]) ++ (toolCallsOf (model ctx).events).map (execToolCall env)

/-- The working history at the start of turn `k` (0-based). -/
def iterTurn (env : AgentEnv) (model : ModelFn) : Nat → List Message → List Message
  | 0, ctx => ctx
  | k + 1, ctx => iterTurn env model k (nextCtx env model ctx)

/-- Error flag of a message (`isError` of a tool result). -/
def Message.isErr : Message → Bool
  | .toolResult _ _ _ e _ => e
  | _ => false

/-! ## Reference-level embedding of `runAgent` for the frame property

JavaScript arrays are references into a heap.  To state that `runAgent`
mutates only its own working copy (`messages: [...messages]`) and never
the caller's array, the loop is re-run over an explicit store of arrays:
array ids are indices, `push` becomes `List.set` at the owned index. -/

/-- A heap of message arrays; an array id is an index into the store. -/
abbrev Store := List (List Message)

/-- The loop body of `runAgent`, operating on the array with id `ctxId`
inside the store: every `context.messages.push(...)` is a `set` at
`ctxId`. -/
def runAgentStoreLoop (env : AgentEnv) (model : ModelFn) :
    Nat → Store → Nat → Option (String × Store)
  | 0, _, _ => none
  | fuel + 1, s, ctxId =>
      let ctx := s.getD ctxId []
      let out := model ctx
      let text := textOf out.events
      let toolCalls := toolCallsOf out.events
      let s1 := s.set ctxId (ctx ++ [out.result])
      if toolCalls.isEmpty then some (text, s1)
      else
        runAgentStoreLoop env model fuel
          (s1.set ctxId (s1.getD ctxId [] ++ toolCalls.map (execToolCall env))) ctxId

/-- `runAgent(messages, ...)` at the store level: read the caller's array
`callerId`, allocate a fresh array holding a copy of its contents
(`messages: [...messages]` — the fresh id is `s.length`), and run the loop
on the fresh array only. -/
def runAgentStore (env : AgentEnv) (model : ModelFn) (fuel : Nat)
    (s : Store) (callerId : Nat) : Option (String × Store) :=
  let msgs := s.getD callerId []
  runAgentStoreLoop env model fuel (s ++ [msgs]) s.length

/-! ## The streaming renderer (`handleMessage`, src/index.ts)

State of the streaming branch of `handleMessage`: the `editMessage`
closure's captured variables (`lastEditTime`, `lastEditedText`), plus a
trace of the transport calls it issued.  The transport (`ctx.api`) is an
oracle: `out k` is the outcome of the `k`-th `editMessageText` call —
`ok`, or an exception whose message may contain `"not modified"`. -/

/-- One transport call issued by the renderer. -/
inductive Action where
  | createCall (text : String)
  | editCall (text : String)
  | deleteCall
  | sendCall (text : String)
deriving DecidableEq, Repr

/-- Renderer-local state: `lastEditTime` and `lastEditedText` of the
`editMessage` closure, the count of `editMessageText` calls issued so far
(`calls`, used to index the transport oracle), the trace of transport
calls, and the number of `msgLog.warn` lines emitted for failed edits. -/
structure RenderState where
  lastEditTime : Int
  lastEditedText : String
  calls : Nat
  actions : List Action
  warnings : Nat
deriving DecidableEq, Repr

/-- State after `await ctx.reply("...")` created the placeholder message:
`lastEditTime = 0`, `lastEditedText = ""`. -/
def initRenderState : RenderState :=
  { lastEditTime := 0
    lastEditedText := ""
    calls := 0
    actions := [Action.createCall "..."]
    warnings := 0 }

/-- `const THROTTLE_MS = 500`. -/
def THROTTLE_MS : Int := 500

/-- `const MIN_CHARS_CHANGE = 20`. -/
def MIN_CHARS_CHANGE : Int := 20

/-- JavaScript `s.includes(pat)`. -/
def strIncludes (s pat : String) : Bool := decide (List.IsInfix pat.data s.data)

/-- `newText.length > 4000 ? newText.slice(-4000) + "\n\n[...truncated]" : newText`. -/
def displayOf (newText : String) : String :=
  if newText.length > 4000 then
    String.mk (newText.data.drop (newText.length - 4000)) ++ "\n\n[...truncated]"
  else newText

/-- `displayText || "..."` applied to `displayOf`. -/
def displayClamp (newText : String) : String :=
  let d := displayOf newText
  if d = "" then "..." else d

/-- The `editMessage` closure.  Guard: the text changed, and the update is
forced or both the throttle interval elapsed and the size delta reaches
the minimum change.  When the guard holds, one `editMessageText` transport
call is issued; on success the closure records `lastEditTime`/
`lastEditedText`; an exception is caught — `"not modified"` is ignored,
anything else is logged as a warning.  `out` is the transport oracle,
`now` is `Date.now()`. -/
def editMessage (out : Nat → Except String Unit) (now : Int) (st : RenderState)
    (newText : String) (force : Bool) : RenderState :=
  if newText ≠ st.lastEditedText ∧
      (force = true ∨
        (now - st.lastEditTime ≥ THROTTLE_MS ∧
          (newText.length : Int) - (st.lastEditedText.length : Int) ≥ MIN_CHARS_CHANGE)) then
    let st1 : RenderState :=
      { st with
          calls := st.calls + 1
          actions := st.actions ++ [Action.editCall (displayClamp newText)] }
    match out st.calls with
    | .ok _ => { st1 with lastEditTime := now, lastEditedText := newText }
    | .error m =>
        if strIncludes m "not modified" then st1
        else { st1 with warnings := st1.warnings + 1 }
  else st

/-- The events delivered by `runAgentStreaming` to the renderer switch:
`text_delta` carries the accumulated text, `tool_start` the tool name,
`done` the turn's full text. -/
inductive RenderEvent where
  | text_delta (accumulated : String)
  | tool_start (name : String)
  | tool_end
  | done (fullText : String)
deriving DecidableEq, Repr

/-- The `toolEmojis` record with its `default` entry. -/
def toolEmoji (name : String) : String :=
  if name = "web_search" then "🔍"
  else if name = "fetch_url" then "🌐"
  else if name = "bash" then "⚙️"
  else if name = "read" then "📖"
  else if name = "write" then "✏️"
  else if name = "edit" then "✏️"
  else if name = "save_memory" then "💾"
  else if name = "recall_memories" then "🧠"
  else if name = "create_cron" then "⏰"
  else "🔧"

/-- State of the event loop: renderer state plus the `fullText` and
`currentToolIndicator` variables of `handleMessage`. -/
structure HandlerState where
  rs : RenderState
  fullText : String
  indicator : String
deriving DecidableEq, Repr

/-- `handleMessage`'s streaming state right before the event loop. -/
def initHandlerState : HandlerState :=
  { rs := initRenderState, fullText := "", indicator := "" }

/-- The `switch (event.type)` body of the streaming loop. -/
def handleEvent (out : Nat → Except String Unit) (now : Int)
    (st : HandlerState) : RenderEvent → HandlerState
  | .text_delta accumulated =>
      let st1 := { st with fullText := accumulated }
      { st1 with rs := editMessage out now st1.rs (st1.fullText ++ st1.indicator) false }
  | .tool_start name =>
      let ind := "\n\n" ++ toolEmoji name ++ " _" ++ name ++ "_..."
      let st1 := { st with indicator := ind }
      { st1 with rs := editMessage out now st1.rs (st1.fullText ++ ind) true }
  | .tool_end =>
      let st1 := { st with indicator := "" }
      if st1.fullText ≠ "" then
        { st1 with rs := editMessage out now st1.rs st1.fullText true }
      else st1
  | .done t => { st with fullText := t }

/-- The whole `for await (const event of streamGen)` loop; each event
carries its `Date.now()` arrival time. -/
def runEvents (out : Nat → Except String Unit) (st : HandlerState)
    (evs : List (Int × RenderEvent)) : HandlerState :=
  evs.foldl (fun s p => handleEvent out p.1 s p.2) st

/-- `fullText.slice(i, i + 4096)` for `i = 0, 4096, ...` — the overflow
chunking loop, on character lists. -/
def chunkList (l : List Char) : List (List Char) :=
  if l = [] then [] else l.take 4096 :: chunkList (l.drop 4096)
termination_by l.length
decreasing_by
  simp only [List.length_drop]
  have hne : ¬ l = [] := by assumption
  have : l.length ≠ 0 := fun h => hne (List.eq_nil_of_length_eq_zero h)
  omega

/-- Overflow chunks of a string. -/
def chunkText (s : String) : List String := (chunkList s.data).map String.mk

/-- Concatenation of a list of strings (spec-side, for the overflow law). -/
def concatOf (ls : List String) : String := String.mk (ls.map String.data).flatten

/-- Code after the event loop: the final forced edit, then — when the
final text exceeds 4096 characters — best-effort deletion of the
placeholder (`try { deleteMessage } catch (e) { /* ignore */ }`; the
outcome `del` is discarded by the empty catch) followed by the ordered
chunked sends.  Transport sends are modelled as delivering; a failing
`ctx.reply` escalates to `handleMessage`'s outer catch and is outside the
renderer's swallowing behaviour. -/
def finalize (out : Nat → Except String Unit) (del : Except String Unit)
    (now : Int) (st : HandlerState) : HandlerState :=
  let _ := del
  let st1 := { st with rs := editMessage out now st.rs st.fullText true }
  if st1.fullText.length > 4096 then
    let rs1 := { st1.rs with actions := st1.rs.actions ++ [Action.deleteCall] }
    let rs2 := { rs1 with actions := rs1.actions ++ (chunkText st1.fullText).map Action.sendCall }
    { st1 with rs := rs2 }
  else st1

/-- Event loop followed by finalization — the full streaming branch. -/
def runPipeline (out : Nat → Except String Unit) (del : Except String Unit)
    (now : Int) (evs : List (Int × RenderEvent)) (st : HandlerState) : HandlerState :=
  finalize out del now (runEvents out st evs)

/-- The non-streaming send: one message when the response fits, otherwise
the chunked sends (`else` branch of `handleMessage`). -/
def sendResponse (response : String) : List Action :=
  if response.length ≤ 4096 then [Action.sendCall response]
  else (chunkText response).map Action.sendCall

/-! ## Exception-transparent renderer

The same renderer code, typed in the `Except String` monad in which an
uncaught JavaScript exception would propagate and abort the event loop.
`editMessage`'s `try/catch` appears as the match on the transport outcome:
both catch branches return normally, which is exactly what the
failure-swallowing claims assert. -/

/-- `editMessage` with explicit exception typing: the `try` block's
transport failure is consumed by the `catch` arm, so every branch ends in
`Except.ok`. -/
def editMessageE (out : Nat → Except String Unit) (now : Int) (st : RenderState)
    (newText : String) (force : Bool) : Except String RenderState :=
  if newText ≠ st.lastEditedText ∧
      (force = true ∨
        (now - st.lastEditTime ≥ THROTTLE_MS ∧
          (newText.length : Int) - (st.lastEditedText.length : Int) ≥ MIN_CHARS_CHANGE)) then
    let st1 : RenderState :=
      { st with
          calls := st.calls + 1
          actions := st.actions ++ [Action.editCall (displayClamp newText)] }
    match out st.calls with
    | .ok _ => .ok { st1 with lastEditTime := now, lastEditedText := newText }
    | .error m =>
        if strIncludes m "not modified" then .ok st1
        else .ok { st1 with warnings := st1.warnings + 1 }
  else .ok st

/-- The event switch in the `Except` monad: an exception escaping
`editMessage` would abort the whole loop here. -/
def handleEventE (out : Nat → Except String Unit) (now : Int)
    (st : HandlerState) : RenderEvent → Except String HandlerState
  | .text_delta accumulated => do
      let st1 := { st with fullText := accumulated }
      let rs ← editMessageE out now st1.rs (st1.fullText ++ st1.indicator) false
      pure { st1 with rs := rs }
  | .tool_start name => do
      let ind := "\n\n" ++ toolEmoji name ++ " _" ++ name ++ "_..."
      let st1 := { st with indicator := ind }
      let rs ← editMessageE out now st1.rs (st1.fullText ++ ind) true
      pure { st1 with rs := rs }
  | .tool_end =>
      let st1 := { st with indicator := "" }
      if st1.fullText ≠ "" then do
        let rs ← editMessageE out now st1.rs st1.fullText true
        pure { st1 with rs := rs }
      else pure st1
  | .done t => pure { st with fullText := t }

/-- The event loop in the `Except` monad. -/
def runEventsE (out : Nat → Except String Unit) (st : HandlerState)
    (evs : List (Int × RenderEvent)) : Except String HandlerState :=
  evs.foldlM (fun s p => handleEventE out p.1 s p.2) st

/-- Finalization in the `Except` monad: the placeholder-deletion outcome
`del` is dropped by the empty `catch (e) {}`. -/
def finalizeE (out : Nat → Except String Unit) (del : Except String Unit)
    (now : Int) (st : HandlerState) : Except String HandlerState := do
  let _ := del
  let rs ← editMessageE out now st.rs st.fullText true
  let st1 := { st with rs := rs }
  if st1.fullText.length > 4096 then
    let rs1 := { st1.rs with actions := st1.rs.actions ++ [Action.deleteCall] }
    let rs2 := { rs1 with actions := rs1.actions ++ (chunkText st1.fullText).map Action.sendCall }
    pure { st1 with rs := rs2 }
  else pure st1

/-- The full streaming branch in the `Except` monad. -/
def runPipelineE (out : Nat → Except String Unit) (del : Except String Unit)
    (now : Int) (evs : List (Int × RenderEvent)) (st : HandlerState) :
    Except String HandlerState := do
  let st1 ← runEventsE out st evs
  finalizeE out del now st1

/-! ## Concrete instances used to exercise the theorems -/

/-- An environment whose handler table has one succeeding and one failing
tool and no others. -/
def envW : AgentEnv :=
  { findHandler := fun n =>
      if n = "ok_tool" then some (fun _ _ => .ok [.text "done"])
      else if n = "bad_tool" then some (fun _ _ => .error "boom")
      else none
    validate := fun tc => .ok tc
    now := 0 }

/-- An environment with an empty handler table. -/
def env0 : AgentEnv :=
  { findHandler := fun _ => none, validate := fun tc => .ok tc, now := 0 }

/-- A tool call for a name absent from every handler table used here. -/
def loopCall : ToolCall := { id := "1", name := "loop", args := "{}" }

/-- A model that requests one tool call on every turn. -/
def alwaysToolModel : ModelFn := fun _ =>
  { events := [.toolcall_end loopCall], result := .assistant "" [loopCall] 0 }

/-- A model that answers with plain text and no tool calls. -/
def oneTurnModel : ModelFn := fun _ =>
  { events := [.text_delta "hi"], result := .assistant "hi" [] 0 }

/-- A model whose first turn produces text "draft" plus a tool call and
whose second turn produces text "final" with no tool calls. -/
def twoTurnModel : ModelFn := fun ctx =>
  if ctx.length = 0 then
    { events := [.text_delta "draft", .toolcall_end loopCall]
      result := .assistant "draft" [loopCall] 0 }
  else
    { events := [.text_delta "final"], result := .assistant "final" [] 0 }

/-! ## Concrete renderer instances -/

/-- A transport whose edits always succeed. -/
def okOut : Nat → Except String Unit := fun _ => Except.ok ()

/-- A transport whose edits always fail with a non-idempotence error. -/
def errOut : Nat → Except String Unit := fun _ =>
  Except.error "Bad Request: message to edit not found"

/-- A transport whose edits always fail with the idempotent
`message is not modified` signal. -/
def nmOut : Nat → Except String Unit := fun _ =>
  Except.error "Bad Request: message is not modified"

/-- A 25-character accumulated text (above `MIN_CHARS_CHANGE`). -/
def txt25 : String := "aaaaaaaaaaaaaaaaaaaaaaaaa"

/-- A handler state with some already-accumulated text. -/
def c3st : HandlerState :=
  { rs := initRenderState, fullText := "hello", indicator := "" }

/-- A 4097-character final text (above the 4096 transport limit). -/
def bigText : String := String.mk (List.replicate 4097 'a')

/-- A handler state whose final text overflows the transport limit. -/
def c4st : HandlerState :=
  { rs := initRenderState, fullText := bigText, indicator := "" }

/-! ## Helper lemmas: `editMessage` -/

theorem editMessage_same (out : Nat → Except String Unit) (now : Int)
    (st : RenderState) (t : String) (f : Bool) (h : t = st.lastEditedText) :
    editMessage out now st t f = st := by
  unfold editMessage
  rw [if_neg]
  intro hc
  exact hc.1 h

theorem editMessage_notThrottled (out : Nat → Except String Unit) (now : Int)
    (st : RenderState) (t : String) (h : ¬ now - st.lastEditTime ≥ THROTTLE_MS) :
    editMessage out now st t false = st := by
  unfold editMessage
  rw [if_neg]
  intro hc
  rcases hc.2 with hf | hts
  · exact Bool.false_ne_true hf
  · exact h hts.1

theorem editMessage_forced_shape (out : Nat → Except String Unit) (now : Int)
    (st : RenderState) (t : String) (h : t ≠ st.lastEditedText) :
    (editMessage out now st t true).calls = st.calls + 1 ∧
      (editMessage out now st t true).actions =
        st.actions ++ [Action.editCall (displayClamp t)] := by
  unfold editMessage
  rw [if_pos ⟨h, Or.inl rfl⟩]
  cases hk : out st.calls with
  | ok u => exact ⟨rfl, rfl⟩
  | error m =>
      by_cases hm : strIncludes m "not modified" = true
      · simp [hm]
      · simp [hm]

theorem editMessage_forced_ok (out : Nat → Except String Unit) (now : Int)
    (st : RenderState) (t : String) (h : t ≠ st.lastEditedText)
    (hok : out st.calls = .ok ()) :
    editMessage out now st t true =
      { st with
          calls := st.calls + 1
          actions := st.actions ++ [Action.editCall (displayClamp t)]
          lastEditTime := now
          lastEditedText := t } := by
  unfold editMessage
  rw [if_pos ⟨h, Or.inl rfl⟩, hok]

theorem editMessage_forced_ok_lastEdited (out : Nat → Except String Unit)
    (now : Int) (st : RenderState) (t : String) (hok : ∀ k, out k = .ok ()) :
    (editMessage out now st t true).lastEditedText = t := by
  by_cases h : t = st.lastEditedText
  · rw [editMessage_same out now st t true h, h]
  · rw [editMessage_forced_ok out now st t h (hok st.calls)]

theorem editMessage_forced_err (out : Nat → Except String Unit) (now : Int)
    (st : RenderState) (t : String) (m : String) (h : t ≠ st.lastEditedText)
    (herr : out st.calls = .error m) :
    editMessage out now st t true =
      if strIncludes m "not modified" then
        { st with
            calls := st.calls + 1
            actions := st.actions ++ [Action.editCall (displayClamp t)] }
      else
        { st with
            calls := st.calls + 1
            actions := st.actions ++ [Action.editCall (displayClamp t)]
            warnings := st.warnings + 1 } := by
  unfold editMessage
  rw [if_pos ⟨h, Or.inl rfl⟩, herr]

/-! ## Helper lemmas: the `Except`-typed renderer equals the pure one -/

theorem editMessageE_ok (out : Nat → Except String Unit) (now : Int)
    (st : RenderState) (t : String) (f : Bool) :
    editMessageE out now st t f = .ok (editMessage out now st t f) := by
  unfold editMessageE editMessage
  by_cases hc : t ≠ st.lastEditedText ∧
      (f = true ∨
        (now - st.lastEditTime ≥ THROTTLE_MS ∧
          (t.length : Int) - (st.lastEditedText.length : Int) ≥ MIN_CHARS_CHANGE))
  · rw [if_pos hc, if_pos hc]
    cases hk : out st.calls with
    | ok u => rfl
    | error m =>
        by_cases hm : strIncludes m "not modified" = true
        · simp [hm]
        · simp [hm]
  · rw [if_neg hc, if_neg hc]

theorem handleEventE_ok (out : Nat → Except String Unit) (now : Int)
    (st : HandlerState) (e : RenderEvent) :
    handleEventE out now st e = .ok (handleEvent out now st e) := by
  cases e with
  | text_delta a => simp [handleEventE, handleEvent, editMessageE_ok]
  | tool_start name => simp [handleEventE, handleEvent, editMessageE_ok]
  | tool_end =>
      by_cases h : st.fullText ≠ ""
      · simp [handleEventE, handleEvent, editMessageE_ok, h]
      · simp only [handleEventE, handleEvent, h, if_false]
        rfl
  | done t => rfl

theorem runEventsE_ok (out : Nat → Except String Unit)
    (evs : List (Int × RenderEvent)) :
    ∀ st : HandlerState, runEventsE out st evs = .ok (runEvents out st evs) := by
  induction evs with
  | nil => intro st; rfl
  | cons p tl ih =>
      intro st
      rw [runEventsE, List.foldlM_cons, handleEventE_ok]
      show runEventsE out (handleEvent out p.1 st p.2) tl = _
      rw [ih (handleEvent out p.1 st p.2)]
      rfl

theorem finalizeE_ok (out : Nat → Except String Unit) (del : Except String Unit)
    (now : Int) (st : HandlerState) :
    finalizeE out del now st = .ok (finalize out del now st) := by
  unfold finalizeE finalize
  rw [editMessageE_ok]
  by_cases h : ({ st with rs := editMessage out now st.rs st.fullText true } : HandlerState).fullText.length > 4096
  · simp only [h]
    rfl
  · simp only [h]
    rfl

theorem runPipelineE_ok (out : Nat → Except String Unit) (del : Except String Unit)
    (now : Int) (evs : List (Int × RenderEvent)) (st : HandlerState) :
    runPipelineE out del now evs st = .ok (runPipeline out del now evs st) := by
  unfold runPipelineE runPipeline
  rw [runEventsE_ok]
  exact finalizeE_ok out del now (runEvents out st evs)

/-! ## Helper lemmas: overflow chunking -/

theorem chunkList_nil : chunkList [] = [] := by
  rw [chunkList]
  simp

theorem chunkList_cons (l : List Char) (h : l ≠ []) :
    chunkList l = l.take 4096 :: chunkList (l.drop 4096) := by
  rw [chunkList]
  simp [h]

theorem chunkList_flatten_bounded :
    ∀ n (l : List Char), l.length ≤ n → (chunkList l).flatten = l := by
  intro n
  induction n with
  | zero =>
      intro l h
      have : l = [] := List.eq_nil_of_length_eq_zero (Nat.le_zero.mp h)
      rw [this, chunkList_nil]
      rfl
  | succ n ih =>
      intro l h
      by_cases hl : l = []
      · rw [hl, chunkList_nil]
        rfl
      · rw [chunkList_cons l hl, List.flatten_cons,
          ih (l.drop 4096) (by
            rw [List.length_drop]
            have : l.length ≠ 0 := fun hz => hl (List.eq_nil_of_length_eq_zero hz)
            omega)]
        exact List.take_append_drop 4096 l

theorem chunkList_flatten (l : List Char) : (chunkList l).flatten = l :=
  chunkList_flatten_bounded l.length l le_rfl

theorem chunkList_length_bounded :
    ∀ n (l : List Char), l.length ≤ n → l ≠ [] →
      (chunkList l).length = (l.length + 4095) / 4096 := by
  intro n
  induction n with
  | zero =>
      intro l h hl
      exact absurd (List.eq_nil_of_length_eq_zero (Nat.le_zero.mp h)) hl
  | succ n ih =>
      intro l h hl
      rw [chunkList_cons l hl]
      by_cases hlen : l.length ≤ 4096
      · have hdrop : l.drop 4096 = [] := by
          apply List.eq_nil_of_length_eq_zero
          rw [List.length_drop]
          omega
        rw [hdrop, chunkList_nil]
        have hpos : 0 < l.length := by
          have : l.length ≠ 0 := fun hz => hl (List.eq_nil_of_length_eq_zero hz)
          omega
        have : (l.length + 4095) / 4096 = 1 := by
          apply Nat.div_eq_of_lt_le
          · omega
          · omega
        rw [this]
        rfl
      · have hdne : l.drop 4096 ≠ [] := by
          intro hz
          have := List.eq_nil_of_length_eq_zero (l := l.drop 4096)
          have hlen0 : (l.drop 4096).length = 0 := by rw [hz]; rfl
          rw [List.length_drop] at hlen0
          omega
        rw [List.length_cons,
          ih (l.drop 4096) (by rw [List.length_drop]; omega) hdne,
          List.length_drop]
        have heq : l.length + 4095 = (l.length - 4096 + 4095) + 4096 := by omega
        rw [heq, Nat.add_div_right _ (by norm_num)]

theorem chunkList_mem_length :
    ∀ n (l : List Char) (c : List Char), l.length ≤ n → c ∈ chunkList l →
      c.length ≤ 4096 := by
  intro n
  induction n with
  | zero =>
      intro l c h hc
      rw [List.eq_nil_of_length_eq_zero (Nat.le_zero.mp h), chunkList_nil] at hc
      exact absurd hc (List.not_mem_nil c)
  | succ n ih =>
      intro l c h hc
      by_cases hl : l = []
      · rw [hl, chunkList_nil] at hc
        exact absurd hc (List.not_mem_nil c)
      · rw [chunkList_cons l hl] at hc
        rcases List.mem_cons.mp hc with hc | hc
        · rw [hc, List.length_take]
          omega
        · exact ih (l.drop 4096) c
            (by
              rw [List.length_drop]
              have : l.length ≠ 0 := fun hz => hl (List.eq_nil_of_length_eq_zero hz)
              omega) hc

theorem concatOf_chunkText (s : String) : concatOf (chunkText s) = s := by
  unfold concatOf chunkText
  rw [List.map_map]
  have hid : (String.data ∘ String.mk) = fun l : List Char => l := funext fun l => rfl
  rw [hid, List.map_id', chunkList_flatten]

theorem chunkText_length (s : String) (h : 4096 < s.length) :
    (chunkText s).length = (s.length + 4095) / 4096 := by
  unfold chunkText
  rw [List.length_map]
  have hlen : s.data.length = s.length := rfl
  have hne : s.data ≠ [] := by
    intro hz
    have : s.data.length = 0 := by rw [hz]; rfl
    omega
  rw [chunkList_length_bounded s.data.length s.data le_rfl hne, hlen]

theorem chunkText_mem_length (s c : String) (hc : c ∈ chunkText s) :
    c.length ≤ 4096 := by
  unfold chunkText at hc
  rcases List.mem_map.mp hc with ⟨l, hl, hcl⟩
  have : c.length = l.length := by rw [← hcl]; rfl
  rw [this]
  exact chunkList_mem_length s.data.length s.data l le_rfl hl

/-! ## Helper lemmas: the store -/

theorem getD_set_ne (s : Store) (i j : Nat) (v : List Message) (h : j ≠ i) :
    (s.set i v).getD j [] = s.getD j [] := by
  simp [List.getD, List.getElem?_set_ne (by omega : i ≠ j)]

theorem getD_append_left (s : Store) (x : List Message) (j : Nat)
    (h : j < s.length) : (s ++ [x]).getD j [] = s.getD j [] := by
  simp [List.getD, List.getElem?_append_left h]

theorem runAgentStoreLoop_frame (env : AgentEnv) (model : ModelFn) :
    ∀ (fuel : Nat) (s : Store) (ctxId : Nat) (t : String) (s' : Store),
      runAgentStoreLoop env model fuel s ctxId = some (t, s') →
      ∀ j, j ≠ ctxId → s'.getD j [] = s.getD j [] := by
  intro fuel
  induction fuel with
  | zero =>
      intro s ctxId t s' h
      exact absurd h (by simp [runAgentStoreLoop])
  | succ n ih =>
      intro s ctxId t s' h j hj
      simp only [runAgentStoreLoop] at h
      split at h
      · injection h with hp
        cases hp
        exact getD_set_ne s ctxId j _ hj
      · rw [ih _ ctxId t s' h j hj, getD_set_ne _ ctxId j _ hj,
          getD_set_ne s ctxId j _ hj]

/-! ## C1 — one ToolResult per tool call, in order, never aborting -/

/-- C1: in every turn, the loop appends exactly one tool-result message per
tool call the model issued, in the order received
(`(toolCallsOf …).map (execToolCall env)`), and then continues looping;
an unknown tool name, a validation failure, or an execution failure each
yield an error-flagged result, and a success yields a non-error result —
never a silent drop and never an abort of the loop. -/
theorem c1_tool_results_one_per_call (env : AgentEnv) (model : ModelFn)
    (fuel : Nat) (ctx : List Message) :
    (toolCallsOf (model ctx).events ≠ [] →
      runAgentFuel env model (fuel + 1) ctx =
        runAgentFuel env model fuel
          ((ctx ++ [(model ctx).result]) ++
            (toolCallsOf (model ctx).events).map (execToolCall env)))
    ∧ ((toolCallsOf (model ctx).events).map (execToolCall env)).length =
        (toolCallsOf (model ctx).events).length
    ∧ (∀ tc ∈ toolCallsOf (model ctx).events, ∃ content isErr,
        execToolCall env tc = .toolResult tc.id tc.name content isErr env.now)
    ∧ (∀ tc : ToolCall, env.findHandler tc.name = none →
        execToolCall env tc =
          .toolResult tc.id tc.name [.text ("Unknown tool: " ++ tc.name)] true env.now)
    ∧ (∀ (tc : ToolCall) execute, env.findHandler tc.name = some execute →
        ∀ e, (env.validate tc).bind (execute tc.id) = .error e →
          execToolCall env tc =
            .toolResult tc.id tc.name [.text ("Error: " ++ e)] true env.now)
    ∧ (∀ (tc : ToolCall) execute content, env.findHandler tc.name = some execute →
        (env.validate tc).bind (execute tc.id) = .ok content →
          execToolCall env tc = .toolResult tc.id tc.name content false env.now) := by
  refine ⟨?_, List.length_map _ _, ?_, ?_, ?_, ?_⟩
  · intro h
    simp only [runAgentFuel]
    rw [if_neg (by simp [List.isEmpty_iff, h])]
  · intro tc _
    cases hh : env.findHandler tc.name with
    | none =>
        exact ⟨[ContentPart.text ("Unknown tool: " ++ tc.name)], true,
          by simp [execToolCall, hh]⟩
    | some execute =>
        cases hb : (env.validate tc).bind (execute tc.id) with
        | ok content => exact ⟨content, false, by simp [execToolCall, hh, hb]⟩
        | error m =>
            exact ⟨[ContentPart.text ("Error: " ++ m)], true,
              by simp [execToolCall, hh, hb]⟩
  · intro tc h
    simp [execToolCall, h]
  · intro tc execute h e he
    simp [execToolCall, h, he]
  · intro tc execute content h hc
    simp [execToolCall, h, hc]

/-- C1 witness: a turn of `alwaysToolModel` continues the loop after
appending its results, and the three tool outcomes (unknown, failing,
succeeding) produce exactly the tool-result messages `runAgent` pushes. -/
theorem c1_witness :
    toolCallsOf (alwaysToolModel []).events ≠ [] ∧
    runAgentFuel envW alwaysToolModel 1 [] =
      runAgentFuel envW alwaysToolModel 0
        (([] ++ [(alwaysToolModel []).result]) ++
          (toolCallsOf (alwaysToolModel []).events).map (execToolCall envW)) ∧
    execToolCall envW ⟨"1", "loop", "{}"⟩ =
      .toolResult "1" "loop" [.text "Unknown tool: loop"] true 0 ∧
    execToolCall envW ⟨"2", "bad_tool", "{}"⟩ =
      .toolResult "2" "bad_tool" [.text "Error: boom"] true 0 ∧
    execToolCall envW ⟨"3", "ok_tool", "{}"⟩ =
      .toolResult "3" "ok_tool" [.text "done"] false 0 := by
  refine ⟨by decide, ?_, ?_, ?_, ?_⟩
  · exact (c1_tool_results_one_per_call envW alwaysToolModel 0 []).1 (by decide)
  · exact (c1_tool_results_one_per_call envW alwaysToolModel 0 []).2.2.2.1
      ⟨"1", "loop", "{}"⟩ rfl
  · exact (c1_tool_results_one_per_call envW alwaysToolModel 0 []).2.2.2.2.1
      ⟨"2", "bad_tool", "{}"⟩ _ rfl "boom" rfl
  · exact (c1_tool_results_one_per_call envW alwaysToolModel 0 []).2.2.2.2.2
      ⟨"3", "ok_tool", "{}"⟩ _ [.text "done"] rfl rfl

/-! ## C2 — terminal turn: one assistant message appended, text returned -/

/-- C2: when a turn produces zero tool calls, the loop appends exactly the
finalized assistant message (`s.result()`, available only after the
provider signalled completion) — one message, once — and returns exactly
that turn's accumulated text. -/
theorem c2_terminal_turn (env : AgentEnv) (model : ModelFn) (fuel : Nat)
    (ctx : List Message) (h : toolCallsOf (model ctx).events = []) :
    runAgentFuel env model (fuel + 1) ctx =
      some (textOf (model ctx).events, ctx ++ [(model ctx).result]) := by
  simp only [runAgentFuel]
  rw [if_pos (by simp [List.isEmpty_iff, h])]

/-- C2 witness: a concrete zero-tool-call turn returns that turn's text and
appends exactly one message. -/
theorem c2_witness :
    toolCallsOf (oneTurnModel []).events = [] ∧
    runAgentFuel env0 oneTurnModel 1 [] =
      some ("hi", [Message.assistant "hi" [] 0]) := by
  refine ⟨rfl, ?_⟩
  rw [c2_terminal_turn env0 oneTurnModel 0 [] rfl]
  rfl

/-! ## C8 — no hard cap on turns; termination only at a zero-tool-call turn -/

/-- C8: `runAgent` has no turn cap: under a model that requests a tool call
on every turn, the loop exceeds every fuel bound `N` without returning;
and whenever the loop does return, some turn within the bound produced
zero tool calls. -/
theorem c8_no_turn_cap :
    (∀ (env : AgentEnv) (N : Nat) (ctx : List Message),
      runAgentFuel env alwaysToolModel N ctx = none)
    ∧ (∀ (env : AgentEnv) (model : ModelFn) (fuel : Nat) (ctx : List Message)
        (t : String) (c : List Message),
        runAgentFuel env model fuel ctx = some (t, c) →
        ∃ k, k < fuel ∧ toolCallsOf (model (iterTurn env model k ctx)).events = []) := by
  constructor
  · intro env N
    induction N with
    | zero => intro ctx; rfl
    | succ n ih =>
        intro ctx
        simp only [runAgentFuel]
        rw [if_neg (by simp [alwaysToolModel, toolCallsOf])]
        exact ih _
  · intro env model fuel
    induction fuel with
    | zero =>
        intro ctx t c h
        exact absurd h (by simp [runAgentFuel])
    | succ n ih =>
        intro ctx t c h
        simp only [runAgentFuel] at h
        split at h
        case isTrue hemp =>
            exact ⟨0, Nat.succ_pos n, List.isEmpty_iff.mp hemp⟩
        case isFalse hemp =>
            obtain ⟨k, hk, hz⟩ := ih _ t c h
            exact ⟨k + 1, Nat.succ_lt_succ hk, hz⟩

/-- C8 witness: the always-tool-calling model exhausts a concrete bound of
5 turns without returning, while a run that does return (the one-turn
model) contains a zero-tool-call turn within its bound. -/
theorem c8_witness :
    runAgentFuel env0 alwaysToolModel 5 [] = none ∧
    (∃ k, k < 1 ∧ toolCallsOf (oneTurnModel (iterTurn env0 oneTurnModel k [])).events = []) := by
  exact ⟨c8_no_turn_cap.1 env0 5 [],
    c8_no_turn_cap.2 env0 oneTurnModel 1 [] "hi" [Message.assistant "hi" [] 0] rfl⟩

/-! ## C9 — the caller's message array is never mutated -/

/-- C9: `runAgent` works on a fresh copy of the caller's message array
(`messages: [...messages]`); every push of an assistant message or tool
result during the run targets the fresh array only, so when the run
returns, the caller's array holds exactly its original messages. -/
theorem c9_caller_history_preserved (env : AgentEnv) (model : ModelFn)
    (fuel : Nat) (s : Store) (callerId : Nat) (t : String) (s' : Store)
    (h1 : callerId < s.length)
    (h2 : runAgentStore env model fuel s callerId = some (t, s')) :
    s'.getD callerId [] = s.getD callerId [] := by
  unfold runAgentStore at h2
  rw [runAgentStoreLoop_frame env model fuel (s ++ [s.getD callerId []])
      s.length t s' h2 callerId (Nat.ne_of_lt h1),
    getD_append_left s _ callerId h1]

/-- C9 witness: a concrete run over a store whose array 0 belongs to the
caller leaves array 0 untouched while the working copy (array 1) has
grown. -/
theorem c9_witness :
    (0 : Nat) < ([[Message.user [] 0]] : Store).length ∧
    runAgentStore env0 oneTurnModel 1 [[Message.user [] 0]] 0 =
      some ("hi", [[Message.user [] 0],
        [Message.user [] 0, Message.assistant "hi" [] 0]]) ∧
    ([[Message.user [] 0],
      [Message.user [] 0, Message.assistant "hi" [] 0]] : Store).getD 0 [] =
      ([[Message.user [] 0]] : Store).getD 0 [] := by
  refine ⟨by decide, rfl, ?_⟩
  exact c9_caller_history_preserved env0 oneTurnModel 1 [[Message.user [] 0]] 0
    "hi" [[Message.user [] 0], [Message.user [] 0, Message.assistant "hi" [] 0]]
    (by decide) rfl

/-! ## C10 — the returned string is exactly the final turn's text -/

/-- C10: when `runAgent` returns, the returned string is exactly the
accumulated text of the terminal turn — the first turn with zero tool
calls (`text` is reset to `""` at the top of every iteration, so text of
earlier turns never leaks into the return value). -/
theorem c10_returns_final_turn_text (env : AgentEnv) (model : ModelFn)
    (fuel : Nat) :
    ∀ (ctx : List Message) (t : String) (c : List Message),
      runAgentFuel env model fuel ctx = some (t, c) →
      ∃ k, k < fuel
        ∧ (∀ j, j < k → toolCallsOf (model (iterTurn env model j ctx)).events ≠ [])
        ∧ toolCallsOf (model (iterTurn env model k ctx)).events = []
        ∧ t = textOf (model (iterTurn env model k ctx)).events
        ∧ c = iterTurn env model k ctx ++ [(model (iterTurn env model k ctx)).result] := by
  induction fuel with
  | zero =>
      intro ctx t c h
      exact absurd h (by simp [runAgentFuel])
  | succ n ih =>
      intro ctx t c h
      simp only [runAgentFuel] at h
      split at h
      case isTrue hemp =>
          injection h with hp
          refine ⟨0, Nat.succ_pos n, fun j hj => absurd hj (Nat.not_lt_zero j),
            List.isEmpty_iff.mp hemp, ?_, ?_⟩
          · exact (congrArg Prod.fst hp).symm
          · exact (congrArg Prod.snd hp).symm
      case isFalse hemp =>
          obtain ⟨k, hk, hall, hz, ht, hc⟩ := ih _ t c h
          refine ⟨k + 1, Nat.succ_lt_succ hk, ?_, hz, ht, hc⟩
          intro j hj
          cases j with
          | zero =>
              intro hzz
              have hzz' : toolCallsOf (model ctx).events = [] := hzz
              exact hemp (by simp [List.isEmpty_iff, hzz'])
          | succ j' => exact hall j' (Nat.lt_of_succ_lt_succ hj)

/-- C10 witness: a two-turn run whose first turn generated text "draft"
alongside a tool call returns exactly "final", the terminal turn's text. -/
theorem c10_witness :
    runAgentFuel env0 twoTurnModel 2 [] =
      some ("final",
        [Message.assistant "draft" [loopCall] 0,
         Message.toolResult "1" "loop" [ContentPart.text "Unknown tool: loop"] true 0,
         Message.assistant "final" [] 0]) ∧
    (∃ k, k < 2
      ∧ (∀ j, j < k → toolCallsOf (twoTurnModel (iterTurn env0 twoTurnModel j [])).events ≠ [])
      ∧ toolCallsOf (twoTurnModel (iterTurn env0 twoTurnModel k [])).events = []
      ∧ "final" = textOf (twoTurnModel (iterTurn env0 twoTurnModel k [])).events
      ∧ [Message.assistant "draft" [loopCall] 0,
         Message.toolResult "1" "loop" [ContentPart.text "Unknown tool: loop"] true 0,
         Message.assistant "final" [] 0] =
          iterTurn env0 twoTurnModel k [] ++
            [(twoTurnModel (iterTurn env0 twoTurnModel k [])).result]) := by
  refine ⟨rfl, ?_⟩
  exact c10_returns_final_turn_text env0 twoTurnModel 2 [] "final"
    [Message.assistant "draft" [loopCall] 0,
     Message.toolResult "1" "loop" [ContentPart.text "Unknown tool: loop"] true 0,
     Message.assistant "final" [] 0] rfl

/-! ## Helper: what `finalize` appends to the action trace -/

theorem finalize_actions_calls (out : Nat → Except String Unit)
    (del : Except String Unit) (now : Int) (st : HandlerState) :
    (finalize out del now st).rs.actions =
      st.rs.actions ++
        (if st.fullText = st.rs.lastEditedText then []
         else [Action.editCall (displayClamp st.fullText)]) ++
        (if st.fullText.length > 4096 then
          [Action.deleteCall] ++ (chunkText st.fullText).map Action.sendCall
         else [])
    ∧ (finalize out del now st).rs.calls =
        st.rs.calls + (if st.fullText = st.rs.lastEditedText then 0 else 1) := by
  have hemA : (editMessage out now st.rs st.fullText true).actions =
      st.rs.actions ++
        (if st.fullText = st.rs.lastEditedText then []
         else [Action.editCall (displayClamp st.fullText)]) := by
    by_cases hft : st.fullText = st.rs.lastEditedText
    · rw [editMessage_same out now st.rs st.fullText true hft, if_pos hft,
        List.append_nil]
    · rw [(editMessage_forced_shape out now st.rs st.fullText hft).2, if_neg hft]
  have hemC : (editMessage out now st.rs st.fullText true).calls =
      st.rs.calls + (if st.fullText = st.rs.lastEditedText then 0 else 1) := by
    by_cases hft : st.fullText = st.rs.lastEditedText
    · rw [editMessage_same out now st.rs st.fullText true hft, if_pos hft]
      exact (Nat.add_zero _).symm
    · rw [(editMessage_forced_shape out now st.rs st.fullText hft).1, if_neg hft]
  refine ⟨?_, ?_⟩ <;> by_cases hov : st.fullText.length > 4096 <;>
    simp [finalize, hov, hemA, hemC, List.append_assoc]

/-! ## C3 — throttle law and the post-`done` forced edit -/

/-- C3 counterexample: the claim that the renderer "always issues exactly
one forced edit" after the `done` event fails.  A single delta that was
already rendered (throttle and size gates passed, transport succeeded)
leaves `lastEditedText` equal to the final text, so the forced edit after
`done` is skipped by the `textChanged` guard: the finalize step issues
zero transport edits, not one. -/
theorem c3_counterexample :
    (runPipeline okOut (Except.ok ()) 800
        [((600 : Int), RenderEvent.text_delta txt25),
         ((700 : Int), RenderEvent.done txt25)] initHandlerState).rs.calls =
      (runEvents okOut initHandlerState
        [((600 : Int), RenderEvent.text_delta txt25),
         ((700 : Int), RenderEvent.done txt25)]).rs.calls ∧
    (runEvents okOut initHandlerState
        [((600 : Int), RenderEvent.text_delta txt25),
         ((700 : Int), RenderEvent.done txt25)]).rs.calls = 1 := by
  decide

/-- C3 (amended): two text-deltas arriving within the throttle interval of
the last edit and below the minimum size delta produce zero intermediate
transport edits; after `done` the renderer makes one forced `editMessage`
invocation with the complete text, which issues **at most** one transport
edit — exactly one when the complete text differs from the last rendered
text (its payload being the display form of the complete text), and zero
when it is identical. -/
theorem c3_throttled_deltas_and_final_edit (out : Nat → Except String Unit)
    (st : HandlerState) (now1 now2 nowF : Int) (a1 a2 : String)
    (del : Except String Unit)
    (h1 : ¬ now1 - st.rs.lastEditTime ≥ THROTTLE_MS)
    (h2 : ¬ now2 - st.rs.lastEditTime ≥ THROTTLE_MS)
    (h3 : ((a1 ++ st.indicator).length : Int) - (st.rs.lastEditedText.length : Int) < MIN_CHARS_CHANGE)
    (h4 : ((a2 ++ st.indicator).length : Int) - (st.rs.lastEditedText.length : Int) < MIN_CHARS_CHANGE) :
    (runEvents out st [(now1, RenderEvent.text_delta a1), (now2, RenderEvent.text_delta a2)]).rs = st.rs
    ∧ (∃ tail,
        (finalize out del nowF st).rs.actions =
          st.rs.actions ++
            (if st.fullText = st.rs.lastEditedText then []
             else [Action.editCall (displayClamp st.fullText)]) ++ tail
        ∧ (∀ a ∈ tail, ∀ s, a ≠ Action.editCall s)
        ∧ (finalize out del nowF st).rs.calls =
            st.rs.calls + (if st.fullText = st.rs.lastEditedText then 0 else 1)) := by
  constructor
  · have e1 : handleEvent out now1 st (.text_delta a1) = { st with fullText := a1 } := by
      show ({ st with
          fullText := a1
          rs := editMessage out now1 st.rs (a1 ++ st.indicator) false } : HandlerState) =
        { st with fullText := a1 }
      rw [editMessage_notThrottled out now1 st.rs (a1 ++ st.indicator) h1]
    have e2 : handleEvent out now2 ({ st with fullText := a1 } : HandlerState)
        (.text_delta a2) = { st with fullText := a2 } := by
      show ({ st with
          fullText := a2
          rs := editMessage out now2 st.rs (a2 ++ st.indicator) false } : HandlerState) =
        { st with fullText := a2 }
      rw [editMessage_notThrottled out now2 st.rs (a2 ++ st.indicator) h2]
    show (handleEvent out now2 (handleEvent out now1 st (.text_delta a1)) (.text_delta a2)).rs = st.rs
    rw [e1, e2]
  · obtain ⟨hA, hC⟩ := finalize_actions_calls out del nowF st
    refine ⟨(if st.fullText.length > 4096 then
        [Action.deleteCall] ++ (chunkText st.fullText).map Action.sendCall
       else []), hA, ?_, hC⟩
    intro a ha s
    by_cases hov : st.fullText.length > 4096
    · rw [if_pos hov] at ha
      rcases List.mem_append.mp ha with ha | ha
      · simp only [List.mem_singleton] at ha
        rw [ha]
        intro hcon
        exact Action.noConfusion hcon
      · rcases List.mem_map.mp ha with ⟨c, _, hc⟩
        rw [← hc]
        intro hcon
        exact Action.noConfusion hcon
    · rw [if_neg hov] at ha
      exact absurd ha (List.not_mem_nil a)

/-- C3 witness for the amended claim: two small, quick deltas over an
already-rendered state issue no edits, and the finalize step after `done`
issues exactly the predicted edits. -/
theorem c3_witness :
    (¬ ((100 : Int) - c3st.rs.lastEditTime ≥ THROTTLE_MS)) ∧
    (((("a" ++ c3st.indicator).length : Int) - (c3st.rs.lastEditedText.length : Int) < MIN_CHARS_CHANGE)) ∧
    ((runEvents okOut c3st [((100 : Int), RenderEvent.text_delta "a"),
        ((200 : Int), RenderEvent.text_delta "ab")]).rs = c3st.rs
      ∧ (∃ tail,
          (finalize okOut (Except.ok ()) 300 c3st).rs.actions =
            c3st.rs.actions ++
              (if c3st.fullText = c3st.rs.lastEditedText then []
               else [Action.editCall (displayClamp c3st.fullText)]) ++ tail
          ∧ (∀ a ∈ tail, ∀ s, a ≠ Action.editCall s)
          ∧ (finalize okOut (Except.ok ()) 300 c3st).rs.calls =
              c3st.rs.calls + (if c3st.fullText = c3st.rs.lastEditedText then 0 else 1))) :=
  ⟨by decide, by decide,
    c3_throttled_deltas_and_final_edit okOut c3st 100 200 300 "a" "ab"
      (Except.ok ()) (by decide) (by decide) (by decide) (by decide)⟩

/-! ## C4 — overflow delivery -/

/-- C4: when the final text exceeds the 4096-character transport limit,
the renderer deletes the placeholder (best-effort: the run is identical
for any deletion outcome `del`/`del'`) and then sends exactly
`⌈L/4096⌉` chunk messages in order, each at most 4096 characters, whose
concatenation is the original text; the non-streaming branch sends the
same chunks. -/
theorem c4_overflow_delivery (out : Nat → Except String Unit)
    (del del' : Except String Unit) (now : Int) (st : HandlerState)
    (h : 4096 < st.fullText.length) :
    (finalize out del now st).rs.actions =
      st.rs.actions ++
        (if st.fullText = st.rs.lastEditedText then []
         else [Action.editCall (displayClamp st.fullText)]) ++
        ([Action.deleteCall] ++ (chunkText st.fullText).map Action.sendCall)
    ∧ (chunkText st.fullText).length = (st.fullText.length + 4095) / 4096
    ∧ (∀ c ∈ chunkText st.fullText, c.length ≤ 4096)
    ∧ concatOf (chunkText st.fullText) = st.fullText
    ∧ finalize out del now st = finalize out del' now st
    ∧ sendResponse st.fullText = (chunkText st.fullText).map Action.sendCall := by
  refine ⟨?_, chunkText_length st.fullText h,
    fun c hc => chunkText_mem_length st.fullText c hc,
    concatOf_chunkText st.fullText, rfl, ?_⟩
  · have hA := (finalize_actions_calls out del now st).1
    rwa [if_pos h] at hA
  · unfold sendResponse
    rw [if_neg (by omega)]

/-- C4 witness: a 4097-character final text is delivered as 2 ordered
chunks after the best-effort placeholder deletion. -/
theorem c4_witness :
    4096 < c4st.fullText.length ∧
    ((finalize okOut (Except.error "delete failed") 900 c4st).rs.actions =
        c4st.rs.actions ++
          (if c4st.fullText = c4st.rs.lastEditedText then []
           else [Action.editCall (displayClamp c4st.fullText)]) ++
          ([Action.deleteCall] ++ (chunkText c4st.fullText).map Action.sendCall)
      ∧ (chunkText c4st.fullText).length = (c4st.fullText.length + 4095) / 4096
      ∧ (∀ c ∈ chunkText c4st.fullText, c.length ≤ 4096)
      ∧ concatOf (chunkText c4st.fullText) = c4st.fullText
      ∧ finalize okOut (Except.error "delete failed") 900 c4st =
          finalize okOut (Except.ok ()) 900 c4st
      ∧ sendResponse c4st.fullText = (chunkText c4st.fullText).map Action.sendCall) := by
  have h : 4096 < c4st.fullText.length := by
    show 4096 < (List.replicate 4097 'a').length
    rw [List.length_replicate]
    norm_num
  exact ⟨h, c4_overflow_delivery okOut (Except.error "delete failed")
    (Except.ok ()) 900 c4st h⟩

/-! ## C5 — idempotence of re-rendering the same text -/

/-- C5 counterexample: "invoking the renderer's edit twice in a row with
the same accumulated text produces at most one transport edit call" fails
when the first edit's transport call throws (a non-"not modified"
failure): `lastEditedText` is not updated by the catch, so the second
invocation with the very same text issues a second transport edit
(a retry).  Here both calls go out: `calls = 2`. -/
theorem c5_counterexample :
    (editMessage errOut 700
        (editMessage errOut 600 initRenderState "hello world, how are you" true)
        "hello world, how are you" true).calls = 2 := by
  decide

/-- C5 (amended): an update whose text equals the renderer's last
*successfully rendered* text (`lastEditedText`) is an exact no-op — no
transport call, no state change, forced or not — so two same-text
invocations of which the first succeeds produce at most one transport
edit; and a transport "message is not modified" failure is treated as a
non-error outcome: the call is counted but no warning is logged and no
exception escapes. -/
theorem c5_idempotent_amended (out : Nat → Except String Unit) (now : Int)
    (st : RenderState) (t : String) (f : Bool) :
    (st.lastEditedText = t → editMessage out now st t f = st)
    ∧ (∀ m, out st.calls = Except.error m → strIncludes m "not modified" = true →
        t ≠ st.lastEditedText →
        editMessage out now st t true =
          { st with
              calls := st.calls + 1
              actions := st.actions ++ [Action.editCall (displayClamp t)] }) := by
  constructor
  · intro h
    exact editMessage_same out now st t f h.symm
  · intro m herr hm hne
    rw [editMessage_forced_err out now st t m hne herr, if_pos hm]

/-- C5 witness: a no-op repeat against the recorded text, and a
"not modified" failure swallowed without a warning. -/
theorem c5_witness :
    initRenderState.lastEditedText = "" ∧
    editMessage nmOut 5 initRenderState "" false = initRenderState ∧
    editMessage nmOut 5 initRenderState "xy" true =
      { initRenderState with
          calls := initRenderState.calls + 1
          actions := initRenderState.actions ++ [Action.editCall (displayClamp "xy")] } := by
  refine ⟨rfl, ?_, ?_⟩
  · exact (c5_idempotent_amended nmOut 5 initRenderState "" false).1 rfl
  · exact (c5_idempotent_amended nmOut 5 initRenderState "xy" true).2
      "Bad Request: message is not modified" rfl (by decide) (by decide)

/-! ## C6 — tool indicator removed on tool-end -/

/-- C6 counterexample: with an *empty* accumulated base text, a
`tool_start` immediately followed by `tool_end` leaves the tool indicator
as the rendered text: `tool_end` only forces a restoring edit when
`fullText` is non-empty (`if (fullText) ...`), so the indicator is not
removed from the rendered message. -/
theorem c6_counterexample :
    initHandlerState.fullText = "" ∧
    (handleEvent okOut 1 (handleEvent okOut 0 initHandlerState
        (RenderEvent.tool_start "web_search")) RenderEvent.tool_end).rs.lastEditedText =
      "\n\n🔍 _web_search_..." ∧
    (handleEvent okOut 1 (handleEvent okOut 0 initHandlerState
        (RenderEvent.tool_start "web_search")) RenderEvent.tool_end).indicator = "" := by
  exact ⟨rfl, by decide, by decide⟩

/-- C6 (amended): when the accumulated base text is non-empty, a
`tool_start` immediately followed by `tool_end` (no delta in between,
transport succeeding) leaves the base text unchanged and rendered with no
residual indicator; when the base text is empty, `tool_end` issues no
restoring edit and the indicator stays rendered until a later edit. -/
theorem c6_tool_indicator_cleared (st : HandlerState) (name : String)
    (now1 now2 : Int) (h : st.fullText ≠ "") :
    (handleEvent okOut now2
        (handleEvent okOut now1 st (.tool_start name)) .tool_end).indicator = ""
    ∧ (handleEvent okOut now2
        (handleEvent okOut now1 st (.tool_start name)) .tool_end).fullText = st.fullText
    ∧ (handleEvent okOut now2
        (handleEvent okOut now1 st (.tool_start name)) .tool_end).rs.lastEditedText =
          st.fullText := by
  have hok : ∀ k, okOut k = Except.ok () := fun _ => rfl
  have e1 : handleEvent okOut now1 st (.tool_start name) =
      { st with
          indicator := "\n\n" ++ toolEmoji name ++ " _" ++ name ++ "_..."
          rs := editMessage okOut now1 st.rs
            (st.fullText ++ ("\n\n" ++ toolEmoji name ++ " _" ++ name ++ "_...")) true } := rfl
  rw [e1]
  set st1 : HandlerState :=
    { st with
        indicator := "\n\n" ++ toolEmoji name ++ " _" ++ name ++ "_..."
        rs := editMessage okOut now1 st.rs
          (st.fullText ++ ("\n\n" ++ toolEmoji name ++ " _" ++ name ++ "_...")) true }
  have e2 : handleEvent okOut now2 st1 .tool_end =
      { st1 with
          indicator := ""
          rs := editMessage okOut now2 st1.rs st1.fullText true } := by
    simp only [handleEvent]
    split
    · rfl
    · next hcon => exact absurd h hcon
  rw [e2]
  exact ⟨rfl, rfl, editMessage_forced_ok_lastEdited okOut now2 st1.rs st1.fullText hok⟩

/-- C6 witness: with base text "hello", an immediate tool-start/tool-end
pair restores the plain base text with no indicator. -/
theorem c6_witness :
    c3st.fullText ≠ "" ∧
    ((handleEvent okOut 20 (handleEvent okOut 10 c3st
        (RenderEvent.tool_start "bash")) RenderEvent.tool_end).indicator = ""
      ∧ (handleEvent okOut 20 (handleEvent okOut 10 c3st
          (RenderEvent.tool_start "bash")) RenderEvent.tool_end).fullText = c3st.fullText
      ∧ (handleEvent okOut 20 (handleEvent okOut 10 c3st
          (RenderEvent.tool_start "bash")) RenderEvent.tool_end).rs.lastEditedText =
            c3st.fullText) :=
  ⟨by decide, c6_tool_indicator_cleared c3st "bash" 10 20 (by decide)⟩

/-! ## C7 — transport edit failures are logged and swallowed -/

/-- C7: the render pipeline never propagates a transport edit failure:
in the exception-typed semantics every run ends in `Except.ok` for every
transport behaviour, so neither the render loop nor the turn loop behind
it is aborted by a failed edit; the placeholder-deletion outcome is
likewise swallowed (the run is identical for any outcome); and a
non-"not modified" edit failure leaves exactly one logged warning, the
state otherwise advancing as a counted-but-unrecorded edit. -/
theorem c7_edit_failures_swallowed (out : Nat → Except String Unit)
    (d d' : Except String Unit) (now : Int) (evs : List (Int × RenderEvent))
    (st0 : HandlerState) :
    runPipelineE out d now evs st0 = Except.ok (runPipeline out d now evs st0)
    ∧ runPipeline out d now evs st0 = runPipeline out d' now evs st0
    ∧ (∀ (st : RenderState) (t m : String), out st.calls = Except.error m →
        strIncludes m "not modified" = false → t ≠ st.lastEditedText →
        editMessage out now st t true =
          { st with
              calls := st.calls + 1
              actions := st.actions ++ [Action.editCall (displayClamp t)]
              warnings := st.warnings + 1 }) := by
  refine ⟨runPipelineE_ok out d now evs st0, rfl, ?_⟩
  intro st t m herr hm hne
  rw [editMessage_forced_err out now st t m hne herr, if_neg (by simp [hm])]

/-- C7 witness: a concrete streaming run over an always-failing transport
completes with `Except.ok`, is insensitive to the deletion outcome, and
logs one warning for the failed edit. -/
theorem c7_witness :
    runPipelineE errOut (Except.error "cannot delete") 0
        [((0 : Int), RenderEvent.text_delta "x")] initHandlerState =
      Except.ok (runPipeline errOut (Except.error "cannot delete") 0
        [((0 : Int), RenderEvent.text_delta "x")] initHandlerState)
    ∧ runPipeline errOut (Except.error "cannot delete") 0
        [((0 : Int), RenderEvent.text_delta "x")] initHandlerState =
      runPipeline errOut (Except.ok ()) 0
        [((0 : Int), RenderEvent.text_delta "x")] initHandlerState
    ∧ editMessage errOut 0 initRenderState "x" true =
      { initRenderState with
          calls := initRenderState.calls + 1
          actions := initRenderState.actions ++ [Action.editCall (displayClamp "x")]
          warnings := initRenderState.warnings + 1 } := by
  obtain ⟨hx, hy, hz⟩ := c7_edit_failures_swallowed errOut
    (Except.error "cannot delete") (Except.ok ()) 0
    [((0 : Int), RenderEvent.text_delta "x")] initHandlerState
  exact ⟨hx, hy, hz initRenderState "x" "Bad Request: message to edit not found"
    rfl (by decide) (by decide)⟩

end Smallbot
